import Mathlib

/-!
Verification of the httptestrunner wire codec core.

Shallow embedding of the dual-protocol (HTTP/2 / HTTP/3) encode/decode
engine: the QUIC-style variable-length integer codec, the HPACK literal
header writer, the HTTP/2 request serializer and frame decode loop, and the
HTTP/3 request serializer and frame decode loop.

Bytes are modelled as natural numbers; every value produced by the encoders
is below 256 (the Go `byte`/`uint8` casts are rendered as `% 256`).  Byte
strings are `List Nat`.
-/

set_option maxRecDepth 10000

/-- A header field: a name/value pair of byte strings
(`utils.Header` / `types.Header` in the source). -/
structure Header where
  name : List Nat
  value : List Nat
  deriving DecidableEq, Repr

/-- A protocol-independent message: ordered header fields plus a body
(`utils.HTTPMessage` / `types.HttpRequest` / `types.HttpResponse`). -/
structure HTTPMessage where
  headers : List Header
  body : List Nat
  deriving DecidableEq, Repr

/-! ## Variable-length integer codec (QUIC style) -/

def maxVarInt1 : Nat := 63
def maxVarInt2 : Nat := 16383
def maxVarInt4 : Nat := 1073741823
def maxVarInt8 : Nat := 4611686018427387903

/-- Embedding of `writeVarInt`.  The Go function writes into a buffer and
panics when the value exceeds 62 bits; the panic is rendered as `none`.
`uint8 x` casts are rendered as `x % 256`. -/
def writeVarInt (i : Nat) : Option (List Nat) :=
  if i ≤ maxVarInt1 then
    some [i % 256]
  else if i ≤ maxVarInt2 then
    some [((i >>> 8) % 256) ||| 0x40, i % 256]
  else if i ≤ maxVarInt4 then
    some [((i >>> 24) % 256) ||| 0x80, (i >>> 16) % 256, (i >>> 8) % 256, i % 256]
  else if i ≤ maxVarInt8 then
    some [((i >>> 56) % 256) ||| 0xc0, (i >>> 48) % 256, (i >>> 40) % 256, (i >>> 32) % 256,
          (i >>> 24) % 256, (i >>> 16) % 256, (i >>> 8) % 256, i % 256]
  else
    none

/-- Embedding of `readVarInt`.  The byte reader is rendered as a byte list;
reading past the end of the list yields `none` (the Go `ReadByte` error is
propagated).  For byte inputs (entries below 256, guaranteed by the Go
`byte` type) the `uint64` arithmetic cannot overflow, so plain `Nat`
arithmetic is exact. -/
def readVarInt : List Nat → Option (Nat × List Nat)
  | [] => none
  | firstByte :: rest =>
    -- the first two bits of the first byte encode the length
    let intLen := 1 <<< ((firstByte &&& 0xc0) >>> 6)
    let b1 := firstByte &&& (0xff - 0xc0)
    if intLen = 1 then
      some (b1, rest)
    else
      match rest with
      | [] => none
      | b2 :: rest2 =>
        if intLen = 2 then
          some (b2 + b1 <<< 8, rest2)
        else
          match rest2 with
          | b3 :: b4 :: rest4 =>
            if intLen = 4 then
              some (b4 + b3 <<< 8 + b2 <<< 16 + b1 <<< 24, rest4)
            else
              match rest4 with
              | b5 :: b6 :: b7 :: b8 :: rest8 =>
                some (b8 + b7 <<< 8 + b6 <<< 16 + b5 <<< 24 + b4 <<< 32 +
                      b3 <<< 40 + b2 <<< 48 + b1 <<< 56, rest8)
              | _ => none
          | _ => none

/-! ### Bit-level helper facts -/

theorem or64_facts : ∀ x < 64, (x ||| 64) &&& 192 = 64 ∧ (x ||| 64) &&& 63 = x := by decide

theorem or128_facts : ∀ x < 64, (x ||| 128) &&& 192 = 128 ∧ (x ||| 128) &&& 63 = x := by decide

theorem or192_facts : ∀ x < 64, (x ||| 192) &&& 192 = 192 ∧ (x ||| 192) &&& 63 = x := by decide

theorem small_and_facts : ∀ x < 64, x &&& 192 = 0 ∧ x &&& 63 = x := by decide

theorem and63_eq_mod (x : Nat) : x &&& 63 = x % 64 := by
  have := Nat.and_pow_two_sub_one_eq_mod x 6
  norm_num at this
  exact this

theorem and127_eq_mod (x : Nat) : x &&& 127 = x % 128 := by
  have := Nat.and_pow_two_sub_one_eq_mod x 7
  norm_num at this
  exact this

/-- The byte list produced by `writeVarInt` together with its decoding:
encode-then-decode is the identity on every value i that fits in 62 bits,
and the output length equals the smallest class that fits i. -/
theorem varint_roundtrip_aux (i : Nat) (bs rest : List Nat)
    (h : writeVarInt i = some bs) :
    readVarInt (bs ++ rest) = some (i, rest) ∧
    bs.length = (if i ≤ maxVarInt1 then 1 else if i ≤ maxVarInt2 then 2
                 else if i ≤ maxVarInt4 then 4 else 8) := by
  unfold writeVarInt at h
  split at h
  · -- one byte
    rename_i h1
    simp only [Option.some.injEq] at h
    subst h
    simp only [maxVarInt1] at h1
    have hb : i % 256 = i := Nat.mod_eq_of_lt (by omega)
    have hf := small_and_facts i (by omega)
    constructor
    · simp only [readVarInt, List.cons_append, List.nil_append, hb]
      norm_num [hf.1, hf.2]
    · simp only [List.length_cons, List.length_nil, maxVarInt1, maxVarInt2, maxVarInt4, maxVarInt8]
      split <;> omega
  · split at h
    · -- two bytes
      rename_i h1 h2
      simp only [Option.some.injEq] at h
      subst h
      simp only [maxVarInt1, maxVarInt2] at h1 h2
      have hlt : i / 256 < 64 := by omega
      have hmod : i / 256 % 256 = i / 256 := Nat.mod_eq_of_lt (by omega)
      have hf := or64_facts (i / 256) hlt
      constructor
      · simp only [readVarInt, List.cons_append, List.nil_append]
        norm_num [Nat.shiftRight_eq_div_pow, Nat.shiftLeft_eq, hmod, hf.1, hf.2]
        omega
      · simp only [List.length_cons, List.length_nil, maxVarInt1, maxVarInt2, maxVarInt4,
          maxVarInt8]
        split <;> omega
    · split at h
      · -- four bytes
        rename_i h1 h2 h3
        simp only [Option.some.injEq] at h
        subst h
        simp only [maxVarInt1, maxVarInt2, maxVarInt4] at h1 h2 h3
        have hlt : i / 16777216 < 64 := by omega
        have hmod : i / 16777216 % 256 = i / 16777216 := Nat.mod_eq_of_lt (by omega)
        have hf := or128_facts (i / 16777216) hlt
        constructor
        · simp only [readVarInt, List.cons_append, List.nil_append]
          norm_num [Nat.shiftRight_eq_div_pow, Nat.shiftLeft_eq, hmod, hf.1, hf.2]
          omega
        · simp only [List.length_cons, List.length_nil, maxVarInt1, maxVarInt2, maxVarInt4,
            maxVarInt8]
          split <;> omega
      · split at h
        · -- eight bytes
          rename_i h1 h2 h3 h4
          simp only [Option.some.injEq] at h
          subst h
          simp only [maxVarInt1, maxVarInt2, maxVarInt4, maxVarInt8] at h1 h2 h3 h4
          have hlt : i / 72057594037927936 < 64 := by omega
          have hmod : i / 72057594037927936 % 256 = i / 72057594037927936 :=
            Nat.mod_eq_of_lt (by omega)
          have hf := or192_facts (i / 72057594037927936) hlt
          constructor
          · simp only [readVarInt, List.cons_append, List.nil_append]
            norm_num [Nat.shiftRight_eq_div_pow, Nat.shiftLeft_eq, hmod, hf.1, hf.2]
            omega
          · simp only [List.length_cons, List.length_nil, maxVarInt1, maxVarInt2, maxVarInt4,
              maxVarInt8]
            split <;> omega
        · exact absurd h (by simp)

/-- Values that fit in 62 bits are always encodable. -/
theorem writeVarInt_isSome_of_le (v : Nat) (h : v ≤ maxVarInt8) :
    ∃ bs, writeVarInt v = some bs := by
  unfold writeVarInt
  by_cases h1 : v ≤ maxVarInt1
  · rw [if_pos h1]; exact ⟨_, rfl⟩
  · rw [if_neg h1]
    by_cases h2 : v ≤ maxVarInt2
    · rw [if_pos h2]; exact ⟨_, rfl⟩
    · rw [if_neg h2]
      by_cases h3 : v ≤ maxVarInt4
      · rw [if_pos h3]; exact ⟨_, rfl⟩
      · rw [if_neg h3, if_pos h]; exact ⟨_, rfl⟩

/-- C2: for every unsigned value in the 62-bit range, QUIC-style varint
encode followed by varint decode yields the original value, and the encoded
length is exactly 1, 2, 4, or 8 bytes according to the documented class
boundaries. -/
theorem varint_encode_decode_roundtrip (v : Nat) (rest : List Nat)
    (h : v ≤ 4611686018427387903) :
    ∃ bs, writeVarInt v = some bs ∧ readVarInt (bs ++ rest) = some (v, rest) ∧
      bs.length = (if v ≤ 63 then 1 else if v ≤ 16383 then 2
                   else if v ≤ 1073741823 then 4 else 8) := by
  obtain ⟨bs, hbs⟩ := writeVarInt_isSome_of_le v (by simp only [maxVarInt8]; omega)
  obtain ⟨hrt, hlen⟩ := varint_roundtrip_aux v bs rest hbs
  exact ⟨bs, hbs, hrt, by simpa only [maxVarInt1, maxVarInt2, maxVarInt4] using hlen⟩

theorem varint_encode_decode_roundtrip_witness :
    ((16384 : Nat) ≤ 4611686018427387903) ∧
    (∃ bs, writeVarInt 16384 = some bs ∧ readVarInt (bs ++ []) = some (16384, []) ∧
      bs.length = (if (16384 : Nat) ≤ 63 then 1 else if (16384 : Nat) ≤ 16383 then 2
                   else if (16384 : Nat) ≤ 1073741823 then 4 else 8)) :=
  ⟨by norm_num, varint_encode_decode_roundtrip 16384 [] (by norm_num)⟩

/-- C8: varint encoding always picks the smallest length class that fits the
value; a value exceeding the 62-bit range hits the fatal (panic) branch,
rendered as `none`; under the 62-bit precondition the fatal branch is
unreachable and encoding succeeds. -/
theorem writeVarInt_smallest_class (v : Nat) :
    (maxVarInt8 < v → writeVarInt v = none) ∧
    (v ≤ maxVarInt8 → ∃ bs, writeVarInt v = some bs ∧
      bs.length = (if v ≤ maxVarInt1 then 1 else if v ≤ maxVarInt2 then 2
                   else if v ≤ maxVarInt4 then 4 else 8)) := by
  constructor
  · intro hgt
    unfold writeVarInt
    simp only [maxVarInt1, maxVarInt2, maxVarInt4, maxVarInt8] at *
    split
    · omega
    · split
      · omega
      · split
        · omega
        · split
          · omega
          · rfl
  · intro hle
    obtain ⟨bs, hbs⟩ := writeVarInt_isSome_of_le v hle
    obtain ⟨_, hlen⟩ := varint_roundtrip_aux v bs [] hbs
    exact ⟨bs, hbs, hlen⟩

theorem writeVarInt_smallest_class_witness :
    (writeVarInt (maxVarInt8 + 1) = none) ∧
    (∃ bs, writeVarInt 70 = some bs ∧
      bs.length = (if (70 : Nat) ≤ maxVarInt1 then 1 else if (70 : Nat) ≤ maxVarInt2 then 2
                   else if (70 : Nat) ≤ maxVarInt4 then 4 else 8)) :=
  ⟨(writeVarInt_smallest_class (maxVarInt8 + 1)).1 (by simp only [maxVarInt8]; omega),
   (writeVarInt_smallest_class 70).2 (by simp only [maxVarInt8]; omega)⟩

/-- C10: varint decoding is determined solely by the top two bits of the
first byte and accepts non-minimal encodings: for each width class, decoding
the big-endian representation of v with the class bits set in the first byte
returns exactly v, so a value also decodable from a shorter canonical class
decodes to the same value. -/
theorem readVarInt_nonminimal (v : Nat) (rest : List Nat) :
    (v < 64 → readVarInt (v :: rest) = some (v, rest)) ∧
    (v < 16384 →
      readVarInt ((((v >>> 8) % 256) ||| 0x40) :: (v % 256) :: rest) = some (v, rest)) ∧
    (v < 1073741824 →
      readVarInt ((((v >>> 24) % 256) ||| 0x80) :: ((v >>> 16) % 256) :: ((v >>> 8) % 256) ::
        (v % 256) :: rest) = some (v, rest)) ∧
    (v < 4611686018427387904 →
      readVarInt ((((v >>> 56) % 256) ||| 0xc0) :: ((v >>> 48) % 256) :: ((v >>> 40) % 256) ::
        ((v >>> 32) % 256) :: ((v >>> 24) % 256) :: ((v >>> 16) % 256) :: ((v >>> 8) % 256) ::
        (v % 256) :: rest) = some (v, rest)) := by
  refine ⟨?_, ?_, ?_, ?_⟩
  · intro hv
    have hf := small_and_facts v hv
    simp only [readVarInt]
    norm_num [hf.1, hf.2]
  · intro hv
    have hlt : v / 256 < 64 := by omega
    have hmod : v / 256 % 256 = v / 256 := Nat.mod_eq_of_lt (by omega)
    have hf := or64_facts (v / 256) hlt
    simp only [readVarInt]
    norm_num [Nat.shiftRight_eq_div_pow, Nat.shiftLeft_eq, hmod, hf.1, hf.2]
    omega
  · intro hv
    have hlt : v / 16777216 < 64 := by omega
    have hmod : v / 16777216 % 256 = v / 16777216 := Nat.mod_eq_of_lt (by omega)
    have hf := or128_facts (v / 16777216) hlt
    simp only [readVarInt]
    norm_num [Nat.shiftRight_eq_div_pow, Nat.shiftLeft_eq, hmod, hf.1, hf.2]
    omega
  · intro hv
    have hlt : v / 72057594037927936 < 64 := by omega
    have hmod : v / 72057594037927936 % 256 = v / 72057594037927936 :=
      Nat.mod_eq_of_lt (by omega)
    have hf := or192_facts (v / 72057594037927936) hlt
    simp only [readVarInt]
    norm_num [Nat.shiftRight_eq_div_pow, Nat.shiftLeft_eq, hmod, hf.1, hf.2]
    omega

theorem readVarInt_nonminimal_witness :
    readVarInt ((((5 >>> 8) % 256) ||| 0x40) :: (5 % 256) :: []) = some (5, []) ∧
    readVarInt ((((5 >>> 24) % 256) ||| 0x80) :: ((5 >>> 16) % 256) :: ((5 >>> 8) % 256) ::
      (5 % 256) :: []) = some (5, []) :=
  ⟨(readVarInt_nonminimal 5 []).2.1 (by norm_num),
   (readVarInt_nonminimal 5 []).2.2.1 (by norm_num)⟩

/-! ## HPACK literal header encoding (HTTP/2 encode side) -/

/-- The continuation bytes written by the loop in `hpackAppendVarInt` after
the prefix byte: 7-bit groups, high bit set on all but the last byte. -/
def hpackContinuationBytes (val : Nat) : List Nat :=
  if 128 ≤ val then
    (0x80 ||| (val &&& 0x7f)) :: hpackContinuationBytes (val >>> 7)
  else
    [val % 256]
termination_by val
decreasing_by
  simp only [Nat.shiftRight_eq_div_pow]
  exact Nat.div_lt_self (by omega) (by norm_num)

/-- Embedding of `hpackAppendVarInt`: appends an n-bit-prefixed HPACK
integer to dst (`byte x` casts rendered as `x % 256`). -/
def hpackAppendVarInt (dst : List Nat) (n : Nat) (val : Nat) : List Nat :=
  let k := (1 <<< n) - 1
  if val < k then
    dst ++ [val % 256]
  else
    dst ++ [k % 256] ++ hpackContinuationBytes (val - k)

/-- Embedding of `hpackAppendHeader`: prefix byte 0x10 (literal header
field, never indexed, new name), then length-prefixed name and value. -/
def hpackAppendHeader (dst : List Nat) (h : Header) : List Nat :=
  let d1 := dst ++ [0x10]
  let d2 := hpackAppendVarInt d1 7 h.name.length
  let d3 := d2 ++ h.name
  let d4 := hpackAppendVarInt d3 7 h.value.length
  d4 ++ h.value

/-- The header block built by the loop in `prepareHTTP2Request`. -/
def hpackEncodeHeaders (hs : List Header) : List Nat :=
  hs.foldl (fun acc h => hpackAppendHeader acc h) []

/-- Result of an incremental decode step: a complete item, a request for
more input, or a malformed-input failure. -/
inductive DecRes (α : Type) where
  | ok (a : α)
  | needMore
  | malformed
  deriving Repr

/-- Modelled from the spec: the decode side uses a standard
header-decompression engine (the external hpack library).  Continuation
decoding of a 7-bit-grouped HPACK integer per the HPACK integer rule. -/
def hpackDecodeCont : List Nat → Nat → DecRes (Nat × List Nat)
  | [], _ => .needMore
  | b :: rest, s =>
    if b &&& 0x80 = 0 then
      .ok ((b &&& 0x7f) <<< s, rest)
    else
      match hpackDecodeCont rest (s + 7) with
      | .ok (v, r) => .ok (((b &&& 0x7f) <<< s) + v, r)
      | .needMore => .needMore
      | .malformed => .malformed

/-- Modelled from the spec: standard decoding of an HPACK string length
with 7-bit prefix.  Huffman-coded strings (high bit of the first byte set)
are outside the literal-only fragment of the model. -/
def hpackDecodeLen : List Nat → DecRes (Nat × List Nat)
  | [] => .needMore
  | b :: rest =>
    if b &&& 0x80 ≠ 0 then .malformed
    else if b &&& 0x7f < 0x7f then .ok (b &&& 0x7f, rest)
    else
      match hpackDecodeCont rest 0 with
      | .ok (v, r) => .ok (0x7f + v, r)
      | .needMore => .needMore
      | .malformed => .malformed

/-- Take exactly n bytes from the input, or report that more are needed. -/
def takeBytes (n : Nat) (bs : List Nat) : DecRes (List Nat × List Nat) :=
  if n ≤ bs.length then .ok (bs.take n, bs.drop n) else .needMore

/-- Modelled from the spec: standard decompression of one literal header
field as emitted by `hpackAppendHeader` (prefix byte 0x10, length-prefixed
name, length-prefixed value). -/
def hpackDecodeField : List Nat → DecRes (Header × List Nat)
  | [] => .needMore
  | b :: rest =>
    if b = 0x10 then
      match hpackDecodeLen rest with
      | .ok (nameLen, r1) =>
        match takeBytes nameLen r1 with
        | .ok (name, r2) =>
          match hpackDecodeLen r2 with
          | .ok (valueLen, r3) =>
            match takeBytes valueLen r3 with
            | .ok (value, r4) => .ok (⟨name, value⟩, r4)
            | .needMore => .needMore
            | .malformed => .malformed
          | .needMore => .needMore
          | .malformed => .malformed
        | .needMore => .needMore
        | .malformed => .malformed
      | .needMore => .needMore
      | .malformed => .malformed
    else
      .malformed

/-- Modelled from the spec: the header-decompression engine decodes as many
complete fields from the buffered input as possible, appending each decoded
field in order; leftover bytes stay buffered, malformed input is an error. -/
def hpackDrainAux : Nat → List Nat → List Header → Except Unit (List Header × List Nat)
  | 0, input, acc => .ok (acc, input)
  | _ + 1, [], acc => .ok (acc, [])
  | fuel + 1, input, acc =>
    match hpackDecodeField input with
    | .ok (h, rest) => hpackDrainAux fuel rest (acc ++ [h])
    | .needMore => .ok (acc, input)
    | .malformed => .error ()

/-- Modelled from the spec: one `Write` call on the header-decompression
engine.  The engine state is the buffered residue; the call returns the
fields decoded by this write and the new residue. -/
def hpackDecoderWrite (buf frag : List Nat) : Except Unit (List Header × List Nat) :=
  hpackDrainAux ((buf ++ frag).length + 1) (buf ++ frag) []

theorem lt128_and_facts : ∀ x < 128, x &&& 128 = 0 ∧ x &&& 127 = x := by decide

theorem or128b_facts : ∀ x < 128, (128 ||| x) &&& 128 = 128 ∧ (128 ||| x) &&& 127 = x := by decide

theorem hpackAppendVarInt_eq_append (dst : List Nat) (n val : Nat) :
    hpackAppendVarInt dst n val = dst ++ hpackAppendVarInt [] n val := by
  unfold hpackAppendVarInt
  by_cases h : val < (1 <<< n) - 1
  · rw [if_pos h, if_pos h, List.nil_append]
  · rw [if_neg h, if_neg h]
    simp

theorem takeBytes_exact (l rest : List Nat) :
    takeBytes l.length (l ++ rest) = .ok (l, rest) := by
  unfold takeBytes
  rw [if_pos (by simp), List.take_left, List.drop_left]

/-- Decoding the continuation bytes of an HPACK integer recovers the value
(shifted by the running 7-bit group offset). -/
theorem hpackDecodeCont_spec (v : Nat) : ∀ (s : Nat) (rest : List Nat),
    hpackDecodeCont (hpackContinuationBytes v ++ rest) s = .ok (v <<< s, rest) := by
  induction v using Nat.strong_induction_on with
  | _ v ih =>
    intro s rest
    unfold hpackContinuationBytes
    by_cases hv : 128 ≤ v
    · rw [if_pos hv]
      have hb : v &&& 127 < 128 := by rw [and127_eq_mod]; omega
      have hf := or128b_facts (v &&& 127) hb
      have hdec : v >>> 7 < v := by
        rw [Nat.shiftRight_eq_div_pow]
        exact Nat.div_lt_self (by omega) (by norm_num)
      have hrec := ih (v >>> 7) hdec (s + 7) rest
      simp only [List.cons_append, hpackDecodeCont, List.append_eq]
      rw [if_neg (by rw [hf.1]; omega), hrec]
      simp only [hf.2]
      have harith : (v &&& 127) <<< s + (v >>> 7) <<< (s + 7) = v <<< s := by
        rw [and127_eq_mod, Nat.shiftRight_eq_div_pow, Nat.shiftLeft_eq, Nat.shiftLeft_eq,
          Nat.shiftLeft_eq, pow_add]
        calc v % 128 * 2 ^ s + v / 2 ^ 7 * (2 ^ s * 2 ^ 7)
            = (v % 128 + 128 * (v / 128)) * 2 ^ s := by norm_num; ring
          _ = v * 2 ^ s := by rw [Nat.mod_add_div]
      rw [harith]
    · rw [if_neg hv]
      have hmod : v % 256 = v := Nat.mod_eq_of_lt (by omega)
      have hf := lt128_and_facts v (by omega)
      simp only [List.cons_append, List.nil_append, hpackDecodeCont, hmod, List.append_eq]
      rw [if_pos (by rw [hf.1]), hf.2]

/-- Decoding an HPACK 7-bit-prefixed integer written by `hpackAppendVarInt`
recovers the value. -/
theorem hpackDecodeLen_spec (v : Nat) (rest : List Nat) :
    hpackDecodeLen (hpackAppendVarInt [] 7 v ++ rest) = .ok (v, rest) := by
  unfold hpackAppendVarInt
  have hk : (1 <<< 7) - 1 = 127 := by norm_num [Nat.shiftLeft_eq]
  rw [hk]
  by_cases h : v < 127
  · rw [if_pos h]
    have hmod : v % 256 = v := Nat.mod_eq_of_lt (by omega)
    have hf := lt128_and_facts v (by omega)
    simp only [List.nil_append, List.cons_append, hpackDecodeLen, hmod]
    rw [if_neg (by rw [hf.1]; omega), if_pos (by rw [hf.2]; omega), hf.2]
  · rw [if_neg h]
    have h127 := lt128_and_facts 127 (by norm_num)
    simp only [List.nil_append, List.cons_append, List.append_assoc, hpackDecodeLen]
    norm_num [h127.1, h127.2]
    rw [hpackDecodeCont_spec (v - 127) 0 rest]
    simp only [Nat.shiftLeft_zero]
    have hv2 : 127 + (v - 127) = v := by omega
    rw [hv2]

/-- Decoding one literal field written by `hpackAppendHeader` recovers the
field. -/
theorem hpackDecodeField_spec (h : Header) (rest : List Nat) :
    hpackDecodeField (hpackAppendHeader [] h ++ rest) = .ok (h, rest) := by
  unfold hpackAppendHeader
  simp only [List.nil_append]
  rw [hpackAppendVarInt_eq_append ([0x10]) 7 h.name.length,
      hpackAppendVarInt_eq_append _ 7 h.value.length]
  simp only [List.append_assoc, List.cons_append, List.nil_append]
  simp only [hpackDecodeField, if_pos rfl, hpackDecodeLen_spec, takeBytes_exact]
  simp

/-- The bytes appended for one header field, in normalized form. -/
theorem hpackAppendHeader_eq_append (dst : List Nat) (h : Header) :
    hpackAppendHeader dst h =
      dst ++ (0x10 :: (hpackAppendVarInt [] 7 h.name.length ++ (h.name ++
        (hpackAppendVarInt [] 7 h.value.length ++ h.value)))) := by
  simp only [hpackAppendHeader]
  rw [hpackAppendVarInt_eq_append (dst ++ [0x10]) 7 h.name.length]
  rw [hpackAppendVarInt_eq_append
    (dst ++ [0x10] ++ hpackAppendVarInt [] 7 h.name.length ++ h.name) 7 h.value.length]
  simp [List.append_assoc]

theorem hpackFoldl_append (t : List Header) : ∀ dst : List Nat,
    t.foldl (fun acc h => hpackAppendHeader acc h) dst
      = dst ++ t.foldl (fun acc h => hpackAppendHeader acc h) [] := by
  induction t with
  | nil => intro dst; simp
  | cons h t ih =>
    intro dst
    simp only [List.foldl_cons]
    rw [ih (hpackAppendHeader dst h), ih (hpackAppendHeader [] h)]
    simp [hpackAppendHeader_eq_append, List.append_assoc]

theorem hpackEncodeHeaders_cons (h : Header) (t : List Header) :
    hpackEncodeHeaders (h :: t) = hpackAppendHeader [] h ++ hpackEncodeHeaders t := by
  unfold hpackEncodeHeaders
  simp only [List.foldl_cons]
  rw [hpackFoldl_append t (hpackAppendHeader [] h)]

theorem hpackEncodeHeaders_length (hs : List Header) :
    hs.length ≤ (hpackEncodeHeaders hs).length := by
  induction hs with
  | nil => simp
  | cons h t ih =>
    rw [hpackEncodeHeaders_cons]
    simp only [List.length_cons, List.length_append]
    rw [hpackAppendHeader_eq_append]
    simp only [List.nil_append, List.length_cons]
    omega

/-- Draining the encoded block decodes exactly the original fields, given
enough fuel; nothing is left in the buffer. -/
theorem hpackDrainAux_spec (hs : List Header) : ∀ (fuel : Nat) (acc : List Header),
    hs.length ≤ fuel →
    hpackDrainAux fuel (hpackEncodeHeaders hs) acc = .ok (acc ++ hs, []) := by
  induction hs with
  | nil =>
    intro fuel acc _
    have he : hpackEncodeHeaders [] = [] := rfl
    rw [he]
    cases fuel <;> simp [hpackDrainAux]
  | cons h t ih =>
    intro fuel acc hfuel
    cases fuel with
    | zero => simp at hfuel
    | succ f =>
      rw [hpackEncodeHeaders_cons]
      have heq : hpackAppendHeader [] h ++ hpackEncodeHeaders t
          = 0x10 :: (hpackAppendVarInt [] 7 h.name.length ++ (h.name ++
              (hpackAppendVarInt [] 7 h.value.length ++ (h.value ++ hpackEncodeHeaders t)))) := by
        rw [hpackAppendHeader_eq_append]
        simp [List.append_assoc]
      rw [heq]
      simp only [hpackDrainAux]
      rw [← heq, hpackDecodeField_spec h (hpackEncodeHeaders t)]
      show hpackDrainAux f (hpackEncodeHeaders t) (acc ++ [h]) = Except.ok (acc ++ h :: t, [])
      rw [ih f (acc ++ [h]) (by simp at hfuel ⊢; omega)]
      simp

/-- C6: every header field is emitted in order as a never-indexed literal
(prefix byte 0x10, 7-bit-prefixed name length, name bytes, 7-bit-prefixed
value length, value bytes); the 7-bit-prefixed integer encodes values below
127 directly and larger values as byte 127 followed by 7-bit continuation
bytes of the remainder; consequently standard HPACK decompression of the
block yields the identical ordered fields (including empty names/values and
strings longer than 127 bytes). -/
theorem hpack_literal_encode_roundtrip (hs : List Header) :
    (∀ hh : Header, ∀ dst : List Nat, hpackAppendHeader dst hh =
      dst ++ (0x10 :: (hpackAppendVarInt [] 7 hh.name.length ++ (hh.name ++
        (hpackAppendVarInt [] 7 hh.value.length ++ hh.value))))) ∧
    (∀ val : Nat, (val < 127 → hpackAppendVarInt [] 7 val = [val]) ∧
      (127 ≤ val → hpackAppendVarInt [] 7 val = 127 :: hpackContinuationBytes (val - 127))) ∧
    hpackDecoderWrite [] (hpackEncodeHeaders hs) = .ok (hs, []) := by
  refine ⟨fun hh dst => hpackAppendHeader_eq_append dst hh, ?_, ?_⟩
  · intro val
    constructor
    · intro hv
      unfold hpackAppendVarInt
      rw [if_pos (by norm_num [Nat.shiftLeft_eq]; omega)]
      simp [Nat.mod_eq_of_lt (by omega : val < 256)]
    · intro hv
      unfold hpackAppendVarInt
      rw [if_neg (by norm_num [Nat.shiftLeft_eq]; omega)]
      norm_num [Nat.shiftLeft_eq]
  · unfold hpackDecoderWrite
    rw [List.nil_append]
    rw [hpackDrainAux_spec hs ((hpackEncodeHeaders hs).length + 1) []
      (by have := hpackEncodeHeaders_length hs; omega)]
    simp

theorem hpack_literal_encode_roundtrip_witness :
    hpackDecoderWrite []
      (hpackEncodeHeaders [⟨[], List.replicate 200 97⟩, ⟨[120], [121]⟩])
      = .ok ([⟨[], List.replicate 200 97⟩, ⟨[120], [121]⟩], []) ∧
    hpackAppendVarInt [] 7 42 = [42] ∧
    hpackAppendVarInt [] 7 300 = 127 :: hpackContinuationBytes (300 - 127) :=
  ⟨(hpack_literal_encode_roundtrip [⟨[], List.replicate 200 97⟩, ⟨[120], [121]⟩]).2.2,
   ((hpack_literal_encode_roundtrip []).2.1 42).1 (by norm_num),
   ((hpack_literal_encode_roundtrip []).2.1 300).2 (by norm_num)⟩

/-! ## HTTP/2 wire encoding (prepareHTTP2Request) -/

/-- An HTTP/2 frame: type, flags, stream identifier, payload. -/
structure H2Frame where
  typ : Nat
  flags : Nat
  streamId : Nat
  payload : List Nat
  deriving DecidableEq, Repr

/-- Modelled from the spec: HTTP/2 frame serialization performed by the
external framer library — 24-bit big-endian length, type byte, flags byte,
31-bit stream identifier (reserved bit cleared), then the payload. -/
def serializeH2Frame (f : H2Frame) : List Nat :=
  let l := f.payload.length
  [(l >>> 16) % 256, (l >>> 8) % 256, l % 256, f.typ % 256, f.flags % 256,
   (f.streamId >>> 24) &&& 0x7f, (f.streamId >>> 16) % 256, (f.streamId >>> 8) % 256,
   f.streamId % 256] ++ f.payload

/-- The fixed HTTP/2 client-preface magic bytes
("PRI * HTTP/2.0" CR LF CR LF "SM" CR LF CR LF). -/
def clientPreface : List Nat :=
  [0x50, 0x52, 0x49, 0x20, 0x2a, 0x20, 0x48, 0x54, 0x54, 0x50, 0x2f, 0x32, 0x2e, 0x30,
   0x0d, 0x0a, 0x0d, 0x0a, 0x53, 0x4d, 0x0d, 0x0a, 0x0d, 0x0a]

/-- The DATA frames written by the chunking loop in `prepareHTTP2Request`:
chunks of at most 65536 bytes on stream 1, end-stream flag (0x1) set exactly
when the chunk reaches the end of the body. -/
def dataFrames : List Nat → List H2Frame
  | [] => []
  | b :: bs =>
    H2Frame.mk 0x0 (if (b :: bs).drop 65536 = [] then 0x1 else 0x0) 1 ((b :: bs).take 65536)
      :: dataFrames ((b :: bs).drop 65536)
termination_by body => body.length
decreasing_by simp [List.length_drop]; omega

/-- The SETTINGS frame payload written first: setting identifier 0x4
(initial window size, 16-bit big-endian) with value 2^30 - 1 (32-bit
big-endian). -/
def settingsPayload : List Nat := [0x00, 0x04, 0x3f, 0xff, 0xff, 0xff]

/-- The WINDOW_UPDATE payload: increment (1 <<< 30) - (1 <<< 16) - 1 as
32-bit big-endian. -/
def windowUpdatePayload : List Nat := [0x3f, 0xfe, 0xff, 0xff]

/-- Embedding of `prepareHTTP2Request`: client preface, SETTINGS frame
advertising the enlarged initial window, connection-level WINDOW_UPDATE,
a single HEADERS frame on stream 1 (end-headers 0x4 always, end-stream 0x1
iff the body is empty) carrying the literal-encoded header block, DATA
frames for the body, and a trailing SETTINGS-ack frame. -/
def prepareHTTP2Request (msg : HTTPMessage) : List Nat :=
  clientPreface
  ++ serializeH2Frame (H2Frame.mk 0x4 0x0 0 settingsPayload)
  ++ serializeH2Frame (H2Frame.mk 0x8 0x0 0 windowUpdatePayload)
  ++ serializeH2Frame (H2Frame.mk 0x1 (if msg.body = [] then 0x5 else 0x4) 1
       (hpackEncodeHeaders msg.headers))
  ++ ((dataFrames msg.body).map serializeH2Frame).flatten
  ++ serializeH2Frame (H2Frame.mk 0x4 0x1 0 [])

/-- Parse a sequence of HTTP/2 frames from raw bytes (fuelled; fuel is
instantiated with the byte length, which is sufficient since every frame
consumes at least nine bytes). -/
def parseH2FramesAux : Nat → List Nat → Option (List H2Frame)
  | _, [] => some []
  | 0, _ :: _ => none
  | fuel + 1, b0 :: b1 :: b2 :: b3 :: b4 :: b5 :: b6 :: b7 :: b8 :: rest =>
    let len := (b0 <<< 16) + (b1 <<< 8) + b2
    if len ≤ rest.length then
      (parseH2FramesAux fuel (rest.drop len)).map
        (fun fs => H2Frame.mk b3 b4 (((b5 &&& 0x7f) <<< 24) + (b6 <<< 16) + (b7 <<< 8) + b8)
          (rest.take len) :: fs)
    else none
  | _ + 1, _ => none

/-- Parse an HTTP/2 frame sequence from raw bytes. -/
def parseH2Frames (bytes : List Nat) : Option (List H2Frame) :=
  parseH2FramesAux bytes.length bytes

/-- Well-formedness of a frame for serialization: payload below the 24-bit
length limit, type and flags bytes, 31-bit stream identifier. -/
def H2FrameWF (f : H2Frame) : Prop :=
  f.payload.length < 16777216 ∧ f.typ < 256 ∧ f.flags < 256 ∧ f.streamId < 2147483648

/-- Parsing inverts serialization for one well-formed frame. -/
theorem parseH2FramesAux_cons (f : H2Frame) (rest : List Nat) (fuel : Nat) (hwf : H2FrameWF f) :
    parseH2FramesAux (fuel + 1) (serializeH2Frame f ++ rest)
      = (parseH2FramesAux fuel rest).map (fun fs => f :: fs) := by
  obtain ⟨hp, ht, hfl, hs⟩ := hwf
  have e1 : ((f.payload.length >>> 16) % 256) <<< 16 + ((f.payload.length >>> 8) % 256) <<< 8
      + f.payload.length % 256 = f.payload.length := by omega
  have e2t : f.typ % 256 = f.typ := Nat.mod_eq_of_lt ht
  have e2f : f.flags % 256 = f.flags := Nat.mod_eq_of_lt hfl
  have e4 : (f.streamId >>> 24) &&& 0x7f = (f.streamId >>> 24) % 128 := and127_eq_mod _
  have e5 : (((f.streamId >>> 24) % 128) &&& 0x7f) <<< 24
      + ((f.streamId >>> 16) % 256) <<< 16 + ((f.streamId >>> 8) % 256) <<< 8
      + f.streamId % 256 = f.streamId := by
    rw [and127_eq_mod]
    omega
  simp only [serializeH2Frame, List.cons_append, List.nil_append, List.append_eq,
    parseH2FramesAux]
  rw [e1, e2t, e2f, e4, e5]
  rw [if_pos (by simp [List.length_append])]
  rw [List.take_left, List.drop_left]

/-- The in-order concatenation of the DATA frame payloads is the body. -/
theorem dataFrames_flatten (body : List Nat) :
    ((dataFrames body).map H2Frame.payload).flatten = body := by
  induction body using dataFrames.induct with
  | case1 => simp [dataFrames]
  | case2 b bs ih =>
    rw [dataFrames]
    simp only [List.map_cons, List.flatten_cons]
    rw [ih]
    exact List.take_append_drop 65536 (b :: bs)

/-- Every DATA frame has type 0, stream 1, a payload of at most 65536
bytes, and a flags byte of 0 or 1. -/
theorem dataFrames_props (body : List Nat) :
    ∀ f ∈ dataFrames body, f.typ = 0 ∧ f.streamId = 1 ∧ f.payload.length ≤ 65536 ∧
      (f.flags = 0 ∨ f.flags = 1) := by
  induction body using dataFrames.induct with
  | case1 => simp [dataFrames]
  | case2 b bs ih =>
    rw [dataFrames]
    intro f hf
    rcases List.mem_cons.mp hf with hH | hT
    · subst hH
      refine ⟨rfl, rfl, ?_, ?_⟩
      · simp [List.length_take]
      · by_cases hd : (b :: bs).drop 65536 = []
        · simp [hd]
        · simp only [if_neg hd]
          exact Or.inl trivial
    · exact ih f hT

theorem dataFrames_eq_nil_iff (body : List Nat) : dataFrames body = [] ↔ body = [] := by
  cases body with
  | nil => simp [dataFrames]
  | cons b bs => rw [dataFrames]; simp

/-- Only the final DATA frame carries the end-stream flag. -/
theorem dataFrames_flags (body : List Nat) (h : body ≠ []) :
    (dataFrames body).map H2Frame.flags
      = List.replicate ((dataFrames body).length - 1) 0 ++ [1] := by
  induction body using dataFrames.induct with
  | case1 => exact absurd rfl h
  | case2 b bs ih =>
    rw [dataFrames]
    by_cases hd : (b :: bs).drop 65536 = []
    · rw [if_pos hd]
      simp [hd, dataFrames]
    · rw [if_neg hd]
      have hne : dataFrames ((b :: bs).drop 65536) ≠ [] := by
        rw [ne_eq, dataFrames_eq_nil_iff]
        exact hd
      simp only [List.map_cons, List.length_cons]
      rw [ih hd]
      have hlen : 1 ≤ (dataFrames ((b :: bs).drop 65536)).length :=
        List.length_pos.mpr hne
      rw [show (dataFrames ((b :: bs).drop 65536)).length + 1 - 1
          = ((dataFrames ((b :: bs).drop 65536)).length - 1) + 1 by omega]
      rw [List.replicate_succ]
      simp

/-- Parsing the concatenated serializations of well-formed frames recovers
the frame list, for any sufficient fuel. -/
theorem parseH2FramesAux_flatten (fs : List H2Frame) : ∀ fuel : Nat,
    (∀ f ∈ fs, H2FrameWF f) → fs.length ≤ fuel →
    parseH2FramesAux fuel ((fs.map serializeH2Frame).flatten) = some fs := by
  induction fs with
  | nil =>
    intro fuel _ _
    cases fuel <;> rfl
  | cons f t ih =>
    intro fuel hwf hfuel
    cases fuel with
    | zero => simp at hfuel
    | succ k =>
      simp only [List.map_cons, List.flatten_cons]
      rw [parseH2FramesAux_cons f _ k (hwf f (List.mem_cons_self f t))]
      rw [ih k (fun g hg => hwf g (List.mem_cons_of_mem f hg)) (by simp at hfuel ⊢; omega)]
      rfl

/-- Each serialized frame contributes at least one byte. -/
theorem serialized_frames_length (fs : List H2Frame) :
    fs.length ≤ ((fs.map serializeH2Frame).flatten).length := by
  induction fs with
  | nil => simp
  | cons f t ih =>
    simp only [List.map_cons, List.flatten_cons, List.length_cons, List.length_append]
    simp only [serializeH2Frame, List.length_append, List.length_cons, List.length_nil]
    omega

/-- C1: the HTTP/2 encoder produces exactly: the client-preface magic
bytes; a SETTINGS frame advertising the enlarged initial window; a
WINDOW_UPDATE frame on stream 0; a single HEADERS frame on stream 1 with
end-headers (0x4) always set and end-stream (0x1) set iff the body is
empty; DATA frames on stream 1 (payloads at most 65536 bytes, concatenating
to the body) present iff the body is non-empty, with only the final one
marked end-stream; and finally a SETTINGS-ack frame after the body. -/
theorem http2_encode_frame_sequence (msg : HTTPMessage)
    (h : (hpackEncodeHeaders msg.headers).length < 16777216) :
    List.take 24 (prepareHTTP2Request msg) = clientPreface ∧
    parseH2Frames (List.drop 24 (prepareHTTP2Request msg))
      = some ([H2Frame.mk 0x4 0x0 0 settingsPayload,
               H2Frame.mk 0x8 0x0 0 windowUpdatePayload,
               H2Frame.mk 0x1 (if msg.body = [] then 0x5 else 0x4) 1
                 (hpackEncodeHeaders msg.headers)]
              ++ dataFrames msg.body ++ [H2Frame.mk 0x4 0x1 0 []]) ∧
    ((dataFrames msg.body).map H2Frame.payload).flatten = msg.body ∧
    (∀ f ∈ dataFrames msg.body, f.typ = 0 ∧ f.streamId = 1 ∧ f.payload.length ≤ 65536) ∧
    (msg.body = [] ↔ dataFrames msg.body = []) ∧
    (msg.body ≠ [] → (dataFrames msg.body).map H2Frame.flags
        = List.replicate ((dataFrames msg.body).length - 1) 0 ++ [1]) := by
  have hpre : prepareHTTP2Request msg = clientPreface ++
      ((([H2Frame.mk 0x4 0x0 0 settingsPayload,
          H2Frame.mk 0x8 0x0 0 windowUpdatePayload,
          H2Frame.mk 0x1 (if msg.body = [] then 0x5 else 0x4) 1
            (hpackEncodeHeaders msg.headers)]
         ++ dataFrames msg.body ++ [H2Frame.mk 0x4 0x1 0 []]).map serializeH2Frame).flatten) := by
    simp [prepareHTTP2Request, List.map_append, List.flatten_append, List.append_assoc]
  have hwf : ∀ f ∈ ([H2Frame.mk 0x4 0x0 0 settingsPayload,
      H2Frame.mk 0x8 0x0 0 windowUpdatePayload,
      H2Frame.mk 0x1 (if msg.body = [] then 0x5 else 0x4) 1 (hpackEncodeHeaders msg.headers)]
      ++ dataFrames msg.body ++ [H2Frame.mk 0x4 0x1 0 []]), H2FrameWF f := by
    intro f hf
    simp only [List.append_assoc, List.mem_append, List.mem_cons,
      List.not_mem_nil, or_false, List.mem_singleton] at hf
    rcases hf with (rfl | rfl | rfl) | hmem | rfl
    · exact ⟨by norm_num [settingsPayload], by norm_num, by norm_num, by norm_num⟩
    · exact ⟨by norm_num [windowUpdatePayload], by norm_num, by norm_num, by norm_num⟩
    · refine ⟨h, by norm_num, ?_, by norm_num⟩
      split <;> norm_num
    · obtain ⟨ht, hsid, hlen, hflags⟩ := dataFrames_props msg.body f hmem
      refine ⟨by omega, by omega, ?_, by omega⟩
      rcases hflags with h0 | h1 <;> omega
    · exact ⟨by norm_num, by norm_num, by norm_num, by norm_num⟩
  refine ⟨?_, ?_, dataFrames_flatten msg.body,
    fun f hf => by
      obtain ⟨a, b, c, _⟩ := dataFrames_props msg.body f hf
      exact ⟨a, b, c⟩,
    ⟨fun hb => (dataFrames_eq_nil_iff msg.body).mpr hb,
     fun hd => (dataFrames_eq_nil_iff msg.body).mp hd⟩,
    dataFrames_flags msg.body⟩
  · rw [hpre]
    exact List.take_left' rfl
  · rw [hpre, List.drop_left' (show clientPreface.length = 24 from rfl)]
    unfold parseH2Frames
    exact parseH2FramesAux_flatten _ _ hwf (serialized_frames_length _)

theorem http2_encode_frame_sequence_witness :
    List.take 24 (prepareHTTP2Request ⟨[], [7, 8, 9]⟩) = clientPreface :=
  (http2_encode_frame_sequence ⟨[], [7, 8, 9]⟩ (by norm_num [hpackEncodeHeaders])).1

/-! ## HTTP/2 decode loop (SendHTTP2Request) -/

/-- The typed frames delivered by the framer to the read loop of
`SendHTTP2Request`. -/
inductive H2RecvFrame where
  | headers (streamId : Nat) (fragment : List Nat) (endHeaders endStream : Bool)
  | continuation (streamId : Nat) (fragment : List Nat) (endHeaders : Bool)
  | data (streamId : Nat) (payload : List Nat) (endStream : Bool)
  | goAway (streamId : Nat) (errCode : Nat)
  | rstStream (streamId : Nat) (errCode : Nat)
  | other (streamId : Nat)
  deriving DecidableEq, Repr

def H2RecvFrame.streamId : H2RecvFrame → Nat
  | .headers sid _ _ _ => sid
  | .continuation sid _ _ => sid
  | .data sid _ _ => sid
  | .goAway sid _ => sid
  | .rstStream sid _ => sid
  | .other sid => sid

/-- Errors produced by the HTTP/2 read loop. -/
inductive H2Error where
  | readError
  | goAway (errCode : Nat)
  | rstStream (errCode : Nat)
  | decompressionError
  deriving DecidableEq, Repr

/-- The loop state of the read loop in `SendHTTP2Request`: the accumulated
response, the header-decompression buffer, and the hasBody / bodyRead /
headersDone flags. -/
structure H2LoopState where
  headers : List Header
  body : List Nat
  hbuf : List Nat
  hasBody : Bool
  bodyRead : Bool
  headersDone : Bool
  deriving DecidableEq, Repr

/-- The loop condition of `SendHTTP2Request`. -/
def h2Active (st : H2LoopState) : Bool :=
  !st.headersDone || (st.hasBody && !st.bodyRead)

/-- Embedding of the read loop of `SendHTTP2Request` over the typed frames
delivered by the framer.  Running out of frames models a failing
`ReadFrame`; a GOAWAY frame (checked before the stream-identifier filter)
and an RST_STREAM frame on stream 1 are fatal; frames not addressed to
stream 1 are skipped; HEADERS/CONTINUATION fragments are fed to the
header-decompression engine; DATA payloads are appended in arrival order. -/
def h2DecodeLoop (frames : List H2RecvFrame) (st : H2LoopState) :
    HTTPMessage × Option H2Error :=
  if h2Active st then
    match frames with
    | [] => (⟨[], []⟩, some .readError)
    | .goAway _ code :: _ => (⟨[], []⟩, some (.goAway code))
    | f :: rest =>
      if f.streamId ≠ 1 then h2DecodeLoop rest st
      else
        match f with
        | .headers _ frag eh es =>
          match hpackDecoderWrite st.hbuf frag with
          | .error _ => (⟨[], []⟩, some .decompressionError)
          | .ok (hs, buf2) =>
            h2DecodeLoop rest { st with
              headers := st.headers ++ hs
              hbuf := buf2
              headersDone := eh
              hasBody := !es }
        | .continuation _ frag eh =>
          match hpackDecoderWrite st.hbuf frag with
          | .error _ => (⟨[], []⟩, some .decompressionError)
          | .ok (hs, buf2) =>
            h2DecodeLoop rest { st with
              headers := st.headers ++ hs
              hbuf := buf2
              headersDone := eh }
        | .data _ payload es =>
          h2DecodeLoop rest { st with body := st.body ++ payload, bodyRead := es }
        | .rstStream _ code => (⟨[], []⟩, some (.rstStream code))
        | .goAway _ code => (⟨[], []⟩, some (.goAway code))
        | .other _ => h2DecodeLoop rest st
  else
    (⟨st.headers, st.body⟩, none)

/-- The decode phase of `SendHTTP2Request`, from the fresh loop state. -/
def sendHTTP2Decode (frames : List H2RecvFrame) : HTTPMessage × Option H2Error :=
  h2DecodeLoop frames ⟨[], [], [], false, false, false⟩

/-- C4: in the HTTP/2 decode loop, a non-GOAWAY frame whose stream
identifier is not 1 is skipped, leaving the accumulated response and loop
state unchanged; a GOAWAY frame at any point, regardless of its stream
identifier, terminates decoding with an error carrying the peer's numeric
code; an RST_STREAM frame on stream 1 terminates decoding with an error
carrying its code; in particular a GOAWAY with code 7 before any HEADERS
yields the GOAWAY error carrying 7, not a generic decode error. -/
theorem h2_decode_signals :
    (∀ (f : H2RecvFrame) (rest : List H2RecvFrame) (st : H2LoopState),
      h2Active st = true → (∀ sid code, f ≠ .goAway sid code) → f.streamId ≠ 1 →
      h2DecodeLoop (f :: rest) st = h2DecodeLoop rest st) ∧
    (∀ (sid code : Nat) (frames : List H2RecvFrame) (st : H2LoopState),
      h2Active st = true →
      h2DecodeLoop (.goAway sid code :: frames) st = (⟨[], []⟩, some (.goAway code))) ∧
    (∀ (code : Nat) (frames : List H2RecvFrame) (st : H2LoopState),
      h2Active st = true →
      h2DecodeLoop (.rstStream 1 code :: frames) st = (⟨[], []⟩, some (.rstStream code))) ∧
    sendHTTP2Decode [.goAway 0 7] = (⟨[], []⟩, some (.goAway 7)) := by
  refine ⟨?_, ?_, ?_, ?_⟩
  · intro f rest st ha hng hsid
    conv_lhs => rw [h2DecodeLoop.eq_def]
    rw [if_pos ha]
    cases f with
    | goAway sid code => exact absurd rfl (hng sid code)
    | headers sid frag eh es =>
      simp only [H2RecvFrame.streamId] at hsid ⊢
      rw [if_pos hsid]
    | continuation sid frag eh =>
      simp only [H2RecvFrame.streamId] at hsid ⊢
      rw [if_pos hsid]
    | data sid payload es =>
      simp only [H2RecvFrame.streamId] at hsid ⊢
      rw [if_pos hsid]
    | rstStream sid code =>
      simp only [H2RecvFrame.streamId] at hsid ⊢
      rw [if_pos hsid]
    | other sid =>
      simp only [H2RecvFrame.streamId] at hsid ⊢
      rw [if_pos hsid]
  · intro sid code frames st ha
    rw [h2DecodeLoop.eq_def, if_pos ha]
  · intro code frames st ha
    rw [h2DecodeLoop.eq_def, if_pos ha]
    rfl
  · rfl

theorem h2_decode_signals_witness :
    h2DecodeLoop [H2RecvFrame.data 3 [1, 2] true] ⟨[], [], [], false, false, false⟩
        = h2DecodeLoop [] ⟨[], [], [], false, false, false⟩ ∧
    h2DecodeLoop [H2RecvFrame.goAway 0 9] ⟨[], [], [], false, false, false⟩
        = (⟨[], []⟩, some (.goAway 9)) ∧
    h2DecodeLoop [H2RecvFrame.rstStream 1 5] ⟨[], [], [], false, false, false⟩
        = (⟨[], []⟩, some (.rstStream 5)) :=
  ⟨h2_decode_signals.1 (H2RecvFrame.data 3 [1, 2] true) [] ⟨[], [], [], false, false, false⟩
      rfl (fun _ _ h => by cases h) (by norm_num [H2RecvFrame.streamId]),
   h2_decode_signals.2.1 0 9 [] ⟨[], [], [], false, false, false⟩ rfl,
   h2_decode_signals.2.2.1 5 [] ⟨[], [], [], false, false, false⟩ rfl⟩

/-- Feeding the chunked DATA frames to the read loop appends the whole body
in order and terminates cleanly. -/
theorem h2DecodeLoop_data (body : List Nat) : ∀ st : H2LoopState,
    st.headersDone = true → st.hasBody = true → st.bodyRead = false → body ≠ [] →
    h2DecodeLoop ((dataFrames body).map
        (fun fr => H2RecvFrame.data fr.streamId fr.payload (fr.flags == 1))) st
      = (⟨st.headers, st.body ++ body⟩, none) := by
  induction body using dataFrames.induct with
  | case1 => intro st _ _ _ hne; exact absurd rfl hne
  | case2 b bs ih =>
    intro st hd hb hbr _
    rw [dataFrames]
    simp only [List.map_cons]
    conv_lhs => rw [h2DecodeLoop.eq_def]
    rw [if_pos (by simp [h2Active, hd, hb, hbr])]
    simp only [H2RecvFrame.streamId]
    rw [if_neg (by norm_num)]
    by_cases hrest : (b :: bs).drop 65536 = []
    · rw [if_pos hrest]
      have htake : (b :: bs).take 65536 = b :: bs := by
        apply List.take_of_length_le
        have := List.drop_eq_nil_iff.mp hrest
        omega
      rw [show dataFrames ((b :: bs).drop 65536) = [] from
        (dataFrames_eq_nil_iff _).mpr hrest]
      simp only [List.map_nil]
      rw [h2DecodeLoop.eq_def]
      rw [if_neg (by simp [h2Active, hd, hb])]
      simp [htake]
    · rw [if_neg hrest]
      have hstep := ih { st with
          body := st.body ++ (b :: bs).take 65536
          bodyRead := (0 == 1) } hd hb rfl hrest
      rw [hstep]
      simp [List.take_append_drop, List.append_assoc]

/-- C3: the HTTP/2 encoder splits the body into DATA frames of at most
65536 bytes whose in-order concatenation is the original body, and the
decode loop appends received DATA payloads in arrival order, so splitting
followed by reassembly reproduces the body exactly. -/
theorem http2_body_chunking_roundtrip (body : List Nat) :
    (∀ f ∈ dataFrames body, f.payload.length ≤ 65536) ∧
    ((dataFrames body).map H2Frame.payload).flatten = body ∧
    sendHTTP2Decode (H2RecvFrame.headers 1 [] true body.isEmpty ::
        (dataFrames body).map
          (fun fr => H2RecvFrame.data fr.streamId fr.payload (fr.flags == 1)))
      = (⟨[], body⟩, none) := by
  refine ⟨fun f hf => (dataFrames_props body f hf).2.2.1, dataFrames_flatten body, ?_⟩
  unfold sendHTTP2Decode
  have hactive : h2Active ⟨[], [], [], false, false, false⟩ = true := rfl
  rw [h2DecodeLoop.eq_def, if_pos hactive]
  simp only [H2RecvFrame.streamId]
  rw [if_neg (by norm_num)]
  have hw : hpackDecoderWrite ([] : List Nat) ([] : List Nat) = .ok ([], []) := rfl
  simp only [hw, List.nil_append]
  cases hbody : body with
  | nil =>
    simp only [List.isEmpty_nil, dataFrames, List.map_nil]
    rw [h2DecodeLoop.eq_def]
    rw [if_neg (by simp [h2Active])]
  | cons b bs =>
    simp only [List.isEmpty_cons]
    rw [h2DecodeLoop_data (b :: bs) ⟨[], [], [], !false, false, true⟩ rfl rfl rfl (by simp)]
    simp

theorem http2_body_chunking_roundtrip_witness :
    sendHTTP2Decode (H2RecvFrame.headers 1 [] true ([1, 2, 3] : List Nat).isEmpty ::
        (dataFrames [1, 2, 3]).map
          (fun fr => H2RecvFrame.data fr.streamId fr.payload (fr.flags == 1)))
      = (⟨[], [1, 2, 3]⟩, none) :=
  (http2_body_chunking_roundtrip [1, 2, 3]).2.2

/-! ## HTTP/3 wire codec -/

/-- Modelled from the spec: the QPACK header-compression engine is the
external qpack library; the spec requires only a standard-conformant,
invertible coder applied field-by-field in the given order.  Modelled as
length-prefixed literal fields using the QUIC varint. -/
def qpackEncodeBlock : List Header → Option (List Nat)
  | [] => some []
  | h :: t => do
    let ln ← writeVarInt h.name.length
    let lv ← writeVarInt h.value.length
    let rest ← qpackEncodeBlock t
    pure (ln ++ (h.name ++ (lv ++ (h.value ++ rest))))

/-- Embedding of `encodeHeaders`: varint frame type 0x1, varint length of
the compressed block, then the block itself. -/
def encodeHeaders (hs : List Header) : Option (List Nat) := do
  let qpackBuf ← qpackEncodeBlock hs
  let t ← writeVarInt 0x1
  let l ← writeVarInt qpackBuf.length
  pure (t ++ (l ++ qpackBuf))

/-- Embedding of `encodeBody`: no frame for an empty body, otherwise a
single DATA frame: varint type 0x0, varint length, raw body bytes. -/
def encodeBody (body : List Nat) : Option (List (List Nat)) :=
  if body = [] then some []
  else do
    let t ← writeVarInt 0x0
    let l ← writeVarInt body.length
    pure [t ++ (l ++ body)]

/-- Embedding of `prepareHTTP3Request`: the HEADERS frame followed by the
body frames. -/
def prepareHTTP3Request (msg : HTTPMessage) : Option (List (List Nat)) := do
  let hf ← encodeHeaders msg.headers
  let bfs ← encodeBody msg.body
  pure ([hf] ++ bfs)

/-- Modelled from the spec: decoding of one modelled QPACK field
(varint-length-prefixed name and value); `none` means more input is
needed. -/
def qpackDecodeField (input : List Nat) : Option (Header × List Nat) :=
  match readVarInt input with
  | none => none
  | some (nl, r1) =>
    if nl ≤ r1.length then
      match readVarInt (r1.drop nl) with
      | none => none
      | some (vl, r2) =>
        if vl ≤ r2.length then
          some (⟨r1.take nl, r2.take vl⟩, r2.drop vl)
        else none
    else none

/-- Modelled from the spec: the QPACK decompression engine decodes as many
complete fields as available, buffering the residue. -/
def qpackDrainAux : Nat → List Nat → List Header → List Header × List Nat
  | 0, input, acc => (acc, input)
  | _ + 1, [], acc => (acc, [])
  | fuel + 1, input, acc =>
    match qpackDecodeField input with
    | some (h, rest) => qpackDrainAux fuel rest (acc ++ [h])
    | none => (acc, input)

/-- Modelled from the spec: one `Write` call on the QPACK decompression
engine: the fields decoded by this write and the new buffered residue. -/
def qpackDecoderWrite (buf frag : List Nat) : List Header × List Nat :=
  qpackDrainAux ((buf ++ frag).length + 1) (buf ++ frag) []

/-- What the transport yields once the buffered response bytes run out. -/
inductive TailSignal where
  | eof
  | appErr
  | otherErr
  deriving DecidableEq, Repr

/-- Errors surfaced by `readFrame` to the HTTP/3 read loop. -/
inductive H3ReadErr where
  | eofErr
  | unexpectedEOF
  | appError
  | other
  deriving DecidableEq, Repr

def tailToErr : TailSignal → H3ReadErr
  | .eof => .eofErr
  | .appErr => .appError
  | .otherErr => .other

/-- Embedding of `readFrame`: read a varint type, a varint length, then
exactly length bytes.  Exhausting the stream inside a varint surfaces the
transport's signal (io.EOF at a clean end of stream); exhausting it inside
the payload surfaces io.ErrUnexpectedEOF, except that io.ReadFull returns
io.EOF when no payload byte was available at a clean end of stream. -/
def readFrame (bytes : List Nat) (tail : TailSignal) :
    Except H3ReadErr ((Nat × List Nat) × List Nat) :=
  match readVarInt bytes with
  | none => .error (tailToErr tail)
  | some (t, r1) =>
    match readVarInt r1 with
    | none => .error (tailToErr tail)
    | some (l, r2) =>
      if l ≤ r2.length then .ok ((t, r2.take l), r2.drop l)
      else
        .error (match tail with
          | .eof => if r2.isEmpty then .eofErr else .unexpectedEOF
          | .appErr => .appError
          | .otherErr => .other)

/-- A successful varint read strictly consumes input. -/
theorem readVarInt_length (l : List Nat) (v : Nat) (r : List Nat)
    (h : readVarInt l = some (v, r)) : r.length < l.length := by
  cases l with
  | nil => simp [readVarInt] at h
  | cons b rest =>
    simp only [readVarInt] at h
    repeat' split at h
    all_goals
      first
      | exact Option.noConfusion h
      | (simp only [Option.some.injEq, Prod.mk.injEq] at h
         obtain ⟨hv, hr⟩ := h
         subst hr
         simp_all <;> omega)

/-- A successful frame read strictly consumes input. -/
theorem readFrame_length (bytes : List Nat) (tail : TailSignal)
    (fr : Nat × List Nat) (rest : List Nat)
    (h : readFrame bytes tail = .ok (fr, rest)) : rest.length < bytes.length := by
  unfold readFrame at h
  cases h1 : readVarInt bytes with
  | none => simp [h1] at h
  | some p1 =>
    obtain ⟨t, r1⟩ := p1
    simp only [h1] at h
    cases h2 : readVarInt r1 with
    | none => simp [h2] at h
    | some p2 =>
      obtain ⟨l, r2⟩ := p2
      simp only [h2] at h
      split at h
      · simp only [Except.ok.injEq, Prod.mk.injEq] at h
        obtain ⟨_, rfl⟩ := h
        have hb1 := readVarInt_length bytes t r1 h1
        have hb2 := readVarInt_length r1 l r2 h2
        have hd : (r2.drop l).length ≤ r2.length := by simp
        omega
      · exact Except.noConfusion h

/-- State accumulated by the HTTP/3 read loop: decoded headers, body bytes,
and the QPACK decoder residue. -/
structure H3State where
  headers : List Header
  body : List Nat
  qbuf : List Nat
  deriving DecidableEq, Repr

/-- Errors produced by the HTTP/3 read loop. -/
inductive H3Error where
  | timeout
  | connDrop
  | readErr (e : H3ReadErr)
  deriving DecidableEq, Repr

/-- Embedding of the read loop of `SendHTTP3Request`.  On a read error: an
expired deadline is reported as a timeout; a clean end of stream returns
the accumulated response; a stream-closed-with-application-error signal is
a connection-drop error; anything else is returned as is.  A frame of type
0x0 appends its payload to the body, type 0x1 feeds the QPACK decoder, and
any other type is ignored.  (The modelled QPACK decoder never fails, so the
Go loop's decoder-error branch is unreachable here.) -/
def h3ReadLoop (bytes : List Nat) (tail : TailSignal) (ctxExpired : Bool) (st : H3State) :
    Option HTTPMessage × Option H3Error :=
  match hm : readFrame bytes tail with
  | .error e =>
    if ctxExpired then (none, some .timeout)
    else if e = .eofErr then (some ⟨st.headers, st.body⟩, none)
    else if e = .appError then (none, some .connDrop)
    else (none, some (.readErr e))
  | .ok (frame, rest) =>
    if frame.1 = 0x0 then
      h3ReadLoop rest tail ctxExpired { st with body := st.body ++ frame.2 }
    else if frame.1 = 0x1 then
      h3ReadLoop rest tail ctxExpired
        { st with
          headers := st.headers ++ (qpackDecoderWrite st.qbuf frame.2).1
          qbuf := (qpackDecoderWrite st.qbuf frame.2).2 }
    else
      h3ReadLoop rest tail ctxExpired st
termination_by bytes.length
decreasing_by all_goals exact readFrame_length bytes tail _ _ hm

/-- Step equation of the HTTP/3 loop for a failing read. -/
theorem h3ReadLoop_error (bytes : List Nat) (tail : TailSignal) (ctx : Bool) (st : H3State)
    (e : H3ReadErr) (hm : readFrame bytes tail = .error e) :
    h3ReadLoop bytes tail ctx st =
      (if ctx then (none, some .timeout)
       else if e = .eofErr then (some ⟨st.headers, st.body⟩, none)
       else if e = .appError then (none, some .connDrop)
       else (none, some (.readErr e))) := by
  rw [h3ReadLoop]
  split
  · rename_i e2 hm2
    rw [hm] at hm2
    injection hm2 with he
    subst he
    rfl
  · rename_i fr2 rest2 hm2
    rw [hm] at hm2
    exact Except.noConfusion hm2

/-- Step equation of the HTTP/3 loop for a successful read. -/
theorem h3ReadLoop_ok (bytes : List Nat) (tail : TailSignal) (ctx : Bool) (st : H3State)
    (fr : Nat × List Nat) (rest : List Nat) (hm : readFrame bytes tail = .ok (fr, rest)) :
    h3ReadLoop bytes tail ctx st =
      (if fr.1 = 0x0 then h3ReadLoop rest tail ctx { st with body := st.body ++ fr.2 }
       else if fr.1 = 0x1 then h3ReadLoop rest tail ctx
          { st with
            headers := st.headers ++ (qpackDecoderWrite st.qbuf fr.2).1
            qbuf := (qpackDecoderWrite st.qbuf fr.2).2 }
       else h3ReadLoop rest tail ctx st) := by
  rw [h3ReadLoop]
  split
  · rename_i e2 hm2
    rw [hm] at hm2
    exact Except.noConfusion hm2
  · rename_i fr2 rest2 hm2
    rw [hm] at hm2
    injection hm2 with hp
    injection hp with hf hr
    subst hf
    subst hr
    rfl

/-- C7: in the HTTP/3 decode loop, a read failure with the deadline expired
is reported as a timeout (never a successful empty message), regardless of
how the stream would have ended; clean end-of-stream without deadline
expiry terminates successfully with the accumulated response; a
stream-closed-with-application-error signal yields the distinct
connection-drop error. -/
theorem h3_read_loop_termination :
    (∀ (bytes : List Nat) (tail : TailSignal) (st : H3State),
        h3ReadLoop bytes tail true st = (none, some .timeout)) ∧
    (∀ st : H3State, h3ReadLoop [] .eof false st = (some ⟨st.headers, st.body⟩, none)) ∧
    (∀ st : H3State, h3ReadLoop [] .appErr false st = (none, some .connDrop)) := by
  refine ⟨?_, ?_, ?_⟩
  · have main : ∀ (n : Nat) (bytes : List Nat), bytes.length ≤ n →
        ∀ (tail : TailSignal) (st : H3State),
        h3ReadLoop bytes tail true st = (none, some H3Error.timeout) := by
      intro n
      induction n with
      | zero =>
        intro bytes hb tail st
        have hbe : bytes = [] := List.eq_nil_of_length_eq_zero (by omega)
        subst hbe
        rw [h3ReadLoop_error [] tail true st (tailToErr tail) rfl]
        rfl
      | succ k ih =>
        intro bytes hb tail st
        cases hm : readFrame bytes tail with
        | error e =>
          rw [h3ReadLoop_error bytes tail true st e hm]
          rfl
        | ok pr =>
          obtain ⟨fr, rest⟩ := pr
          have hlen := readFrame_length bytes tail fr rest hm
          rw [h3ReadLoop_ok bytes tail true st fr rest hm]
          by_cases h0 : fr.1 = 0x0
          · rw [if_pos h0]
            exact ih rest (by omega) tail _
          · rw [if_neg h0]
            by_cases h1 : fr.1 = 0x1
            · rw [if_pos h1]
              exact ih rest (by omega) tail _
            · rw [if_neg h1]
              exact ih rest (by omega) tail st
    intro bytes tail st
    exact main bytes.length bytes le_rfl tail st
  · intro st
    rw [h3ReadLoop_error [] .eof false st .eofErr rfl]
    rfl
  · intro st
    rw [h3ReadLoop_error [] .appErr false st .appError rfl]
    rfl

theorem writeVarInt_ne_nil (v : Nat) (bs : List Nat) (h : writeVarInt v = some bs) :
    bs ≠ [] := by
  intro hnil
  have hrt := (varint_roundtrip_aux v bs [] h).1
  rw [hnil] at hrt
  simp [readVarInt] at hrt

/-- Decoding one modelled QPACK field written by the modelled encoder. -/
theorem qpackDecodeField_spec (h : Header) (rest ln lv : List Nat)
    (hln : writeVarInt h.name.length = some ln)
    (hlv : writeVarInt h.value.length = some lv) :
    qpackDecodeField (ln ++ (h.name ++ (lv ++ (h.value ++ rest)))) = some (h, rest) := by
  have e1 := (varint_roundtrip_aux h.name.length ln (h.name ++ (lv ++ (h.value ++ rest))) hln).1
  have e2 := (varint_roundtrip_aux h.value.length lv (h.value ++ rest) hlv).1
  unfold qpackDecodeField
  simp only [e1]
  rw [if_pos (by simp)]
  rw [List.drop_left]
  simp only [e2]
  rw [if_pos (by simp)]
  rw [List.take_left, List.take_left, List.drop_left]

theorem qpackEncodeBlock_length (hs : List Header) : ∀ blk : List Nat,
    qpackEncodeBlock hs = some blk → hs.length ≤ blk.length := by
  induction hs with
  | nil => intro blk hb; simp [qpackEncodeBlock] at hb; simp [← hb]
  | cons h t ih =>
    intro blk hb
    simp only [qpackEncodeBlock, Option.bind_eq_bind, Option.bind_eq_some] at hb
    obtain ⟨ln, hln, lv, hlv, rest, hrest, hblk⟩ := hb
    simp only [Option.pure_def, Option.some.injEq] at hblk
    have hlen := ih rest hrest
    have hne := writeVarInt_ne_nil _ _ hln
    subst hblk
    simp only [List.length_cons, List.length_append]
    have : 1 ≤ ln.length := by
      cases ln with
      | nil => exact absurd rfl hne
      | cons a as => simp
    omega

/-- Draining the modelled QPACK block decodes exactly the original fields. -/
theorem qpackDrainAux_spec (hs : List Header) : ∀ (fuel : Nat) (acc : List Header)
    (blk : List Nat), qpackEncodeBlock hs = some blk → hs.length ≤ fuel →
    qpackDrainAux fuel blk acc = (acc ++ hs, []) := by
  induction hs with
  | nil =>
    intro fuel acc blk hb _
    simp only [qpackEncodeBlock, Option.some.injEq] at hb
    subst hb
    cases fuel <;> simp [qpackDrainAux]
  | cons h t ih =>
    intro fuel acc blk hb hf
    simp only [qpackEncodeBlock, Option.bind_eq_bind, Option.bind_eq_some] at hb
    obtain ⟨ln, hln, lv, hlv, rest, hrest, hblk⟩ := hb
    cases fuel with
    | zero => simp at hf
    | succ k =>
      obtain ⟨a, as, rfl⟩ := List.exists_cons_of_ne_nil (writeVarInt_ne_nil _ _ hln)
      simp only [Option.pure_def, Option.some.injEq] at hblk
      subst hblk
      simp only [List.cons_append]
      simp only [qpackDrainAux]
      rw [← List.cons_append]
      rw [qpackDecodeField_spec h rest (a :: as) lv hln hlv]
      show qpackDrainAux k rest (acc ++ [h]) = (acc ++ h :: t, [])
      rw [ih k (acc ++ [h]) rest hrest (by simp at hf ⊢; omega)]
      simp

/-- One decoder write over a full modelled block recovers the fields. -/
theorem qpackDecoderWrite_spec (hs : List Header) (blk : List Nat)
    (hb : qpackEncodeBlock hs = some blk) :
    qpackDecoderWrite [] blk = (hs, []) := by
  unfold qpackDecoderWrite
  rw [List.nil_append]
  exact qpackDrainAux_spec hs (blk.length + 1) [] blk hb
    (by have := qpackEncodeBlock_length hs blk hb; omega)

/-- Reading one frame laid out as varint type, varint length, payload. -/
theorem readFrame_of_frame (t : Nat) (tbytes lbytes content rest : List Nat)
    (tail : TailSignal) (hts : writeVarInt t = some tbytes)
    (hls : writeVarInt content.length = some lbytes) :
    readFrame (tbytes ++ (lbytes ++ (content ++ rest))) tail = .ok ((t, content), rest) := by
  have e1 := (varint_roundtrip_aux t tbytes (lbytes ++ (content ++ rest)) hts).1
  have e2 := (varint_roundtrip_aux content.length lbytes (content ++ rest) hls).1
  unfold readFrame
  simp only [e1, e2]
  rw [if_pos (by simp)]
  rw [List.take_left, List.drop_left]

/-- C5: the HTTP/3 encoder emits a HEADERS frame (varint type 0x1, varint
length of the compressed block, then the block with fields compressed in
order) followed by exactly one DATA frame (varint type 0x0, varint length,
raw body bytes) iff the body is non-empty, and the HTTP/3 decoder applied
to that output reproduces the identical header fields in the same order and
the identical body bytes. -/
theorem http3_frame_roundtrip (msg : HTTPMessage) (blk : List Nat)
    (hblk : qpackEncodeBlock msg.headers = some blk)
    (hlen : blk.length ≤ maxVarInt8)
    (hbody : msg.body.length ≤ maxVarInt8) :
    ∃ lh, writeVarInt blk.length = some lh ∧
      (msg.body = [] → prepareHTTP3Request msg = some [[1] ++ (lh ++ blk)]) ∧
      (msg.body ≠ [] → ∃ lb, writeVarInt msg.body.length = some lb ∧
        prepareHTTP3Request msg = some [[1] ++ (lh ++ blk), [0] ++ (lb ++ msg.body)]) ∧
      (∀ frames, prepareHTTP3Request msg = some frames →
        h3ReadLoop frames.flatten .eof false ⟨[], [], []⟩
          = (some ⟨msg.headers, msg.body⟩, none)) := by
  obtain ⟨lh, hlh⟩ := writeVarInt_isSome_of_le blk.length hlen
  have h1 : writeVarInt 0x1 = some [1] := rfl
  have h0 : writeVarInt 0x0 = some [0] := rfl
  have hprepE : msg.body = [] → prepareHTTP3Request msg = some [[1] ++ (lh ++ blk)] := by
    intro hbe
    simp only [prepareHTTP3Request, encodeHeaders, encodeBody, hblk, h1, hlh, hbe,
      Option.some_bind, Option.pure_def, ite_true]
    simp [hlh]
  have hprepN : ∀ lb, writeVarInt msg.body.length = some lb → msg.body ≠ [] →
      prepareHTTP3Request msg = some [[1] ++ (lh ++ blk), [0] ++ (lb ++ msg.body)] := by
    intro lb hlb hbne
    simp only [prepareHTTP3Request, encodeHeaders, encodeBody, hblk, h1, h0, hlh, hlb,
      if_neg hbne, Option.some_bind, Option.pure_def]
    simp [hlh]
  refine ⟨lh, hlh, hprepE, ?_, ?_⟩
  · intro hbne
    obtain ⟨lb, hlb⟩ := writeVarInt_isSome_of_le msg.body.length hbody
    exact ⟨lb, hlb, hprepN lb hlb hbne⟩
  · intro frames hframes
    by_cases hbe : msg.body = []
    · rw [hprepE hbe] at hframes
      injection hframes with hfr
      subst hfr
      have hflat : ([[1] ++ (lh ++ blk)] : List (List Nat)).flatten
          = [1] ++ (lh ++ (blk ++ [])) := by simp
      rw [hflat]
      rw [h3ReadLoop_ok _ _ _ _ (1, blk) []
        (readFrame_of_frame 1 [1] lh blk [] .eof rfl hlh)]
      rw [if_neg (by norm_num), if_pos rfl]
      simp only [qpackDecoderWrite_spec msg.headers blk hblk]
      rw [h3ReadLoop_error [] .eof false _ .eofErr rfl]
      simp [hbe]
    · obtain ⟨lb, hlb⟩ := writeVarInt_isSome_of_le msg.body.length hbody
      rw [hprepN lb hlb hbe] at hframes
      injection hframes with hfr
      subst hfr
      have hflat : ([[1] ++ (lh ++ blk), [0] ++ (lb ++ msg.body)] : List (List Nat)).flatten
          = [1] ++ (lh ++ (blk ++ ([0] ++ (lb ++ (msg.body ++ []))))) := by simp
      rw [hflat]
      rw [h3ReadLoop_ok _ _ _ _ (1, blk) ([0] ++ (lb ++ (msg.body ++ [])))
        (readFrame_of_frame 1 [1] lh blk ([0] ++ (lb ++ (msg.body ++ []))) .eof rfl hlh)]
      rw [if_neg (by norm_num), if_pos rfl]
      simp only [qpackDecoderWrite_spec msg.headers blk hblk]
      rw [h3ReadLoop_ok _ _ _ _ (0, msg.body) []
        (readFrame_of_frame 0 [0] lb msg.body [] .eof rfl hlb)]
      rw [if_pos rfl]
      rw [h3ReadLoop_error [] .eof false _ .eofErr rfl]
      simp

theorem http3_frame_roundtrip_witness :
    h3ReadLoop ([[1] ++ ([12] ++ [1, 97, 1, 98, 1, 99, 1, 100, 1, 101, 1, 102]),
        [0] ++ ([10] ++ [0, 1, 2, 3, 4, 5, 6, 7, 8, 9])] : List (List Nat)).flatten
      .eof false ⟨[], [], []⟩
      = (some ⟨[⟨[97], [98]⟩, ⟨[99], [100]⟩, ⟨[101], [102]⟩],
          [0, 1, 2, 3, 4, 5, 6, 7, 8, 9]⟩, none) := by
  obtain ⟨lh, hlh, hpe, hpn, hdec⟩ := http3_frame_roundtrip
    ⟨[⟨[97], [98]⟩, ⟨[99], [100]⟩, ⟨[101], [102]⟩], [0, 1, 2, 3, 4, 5, 6, 7, 8, 9]⟩
    [1, 97, 1, 98, 1, 99, 1, 100, 1, 101, 1, 102] rfl
    (by norm_num [maxVarInt8]) (by norm_num [maxVarInt8])
  have hlh12 : lh = [12] := by
    have he : some lh = some [12] := hlh.symm.trans rfl
    exact Option.some.inj he
  subst hlh12
  obtain ⟨lb, hlb, hprep⟩ := hpn (by decide)
  have hlb10 : lb = [10] := by
    have he : some lb = some [10] := hlb.symm.trans rfl
    exact Option.some.inj he
  subst hlb10
  exact hdec _ hprep

/-- C9: whenever either decode loop returns an error, it returns the
empty/absent message with it: no partially accumulated header fields or
body bytes are ever returned alongside an error. -/
theorem no_partial_message_on_error :
    (∀ (frames : List H2RecvFrame) (st : H2LoopState) (m : HTTPMessage) (e : H2Error),
        h2DecodeLoop frames st = (m, some e) → m = ⟨[], []⟩) ∧
    (∀ (bytes : List Nat) (tail : TailSignal) (ctx : Bool) (st : H3State)
        (m : Option HTTPMessage) (e : H3Error),
        h3ReadLoop bytes tail ctx st = (m, some e) → m = none) := by
  constructor
  · intro frames
    induction frames with
    | nil =>
      intro st m e h
      rw [h2DecodeLoop.eq_def] at h
      by_cases ha : h2Active st
      · rw [if_pos ha] at h
        simp only [Prod.mk.injEq] at h
        exact h.1.symm
      · rw [if_neg ha] at h
        simp only [Prod.mk.injEq] at h
        exact absurd h.2 (by simp)
    | cons f rest ih =>
      intro st m e h
      rw [h2DecodeLoop.eq_def] at h
      by_cases ha : h2Active st
      · rw [if_pos ha] at h
        cases f with
        | goAway sid code =>
          simp only [Prod.mk.injEq] at h
          exact h.1.symm
        | headers sid frag eh es =>
          simp only [H2RecvFrame.streamId] at h
          by_cases hsid : sid ≠ 1
          · rw [if_pos hsid] at h
            exact ih st m e h
          · rw [if_neg hsid] at h
            cases hw : hpackDecoderWrite st.hbuf frag with
            | error u =>
              simp only [hw, Prod.mk.injEq] at h
              exact h.1.symm
            | ok p =>
              obtain ⟨hs2, buf2⟩ := p
              simp only [hw] at h
              exact ih _ m e h
        | continuation sid frag eh =>
          simp only [H2RecvFrame.streamId] at h
          by_cases hsid : sid ≠ 1
          · rw [if_pos hsid] at h
            exact ih st m e h
          · rw [if_neg hsid] at h
            cases hw : hpackDecoderWrite st.hbuf frag with
            | error u =>
              simp only [hw, Prod.mk.injEq] at h
              exact h.1.symm
            | ok p =>
              obtain ⟨hs2, buf2⟩ := p
              simp only [hw] at h
              exact ih _ m e h
        | data sid payload es =>
          simp only [H2RecvFrame.streamId] at h
          by_cases hsid : sid ≠ 1
          · rw [if_pos hsid] at h
            exact ih st m e h
          · rw [if_neg hsid] at h
            exact ih _ m e h
        | rstStream sid code =>
          simp only [H2RecvFrame.streamId] at h
          by_cases hsid : sid ≠ 1
          · rw [if_pos hsid] at h
            exact ih st m e h
          · rw [if_neg hsid] at h
            simp only [Prod.mk.injEq] at h
            exact h.1.symm
        | other sid =>
          simp only [H2RecvFrame.streamId] at h
          by_cases hsid : sid ≠ 1
          · rw [if_pos hsid] at h
            exact ih st m e h
          · rw [if_neg hsid] at h
            exact ih st m e h
      · rw [if_neg ha] at h
        simp only [Prod.mk.injEq] at h
        exact absurd h.2 (by simp)
  · have main : ∀ (n : Nat) (bytes : List Nat), bytes.length ≤ n →
        ∀ (tail : TailSignal) (ctx : Bool) (st : H3State)
          (m : Option HTTPMessage) (e : H3Error),
        h3ReadLoop bytes tail ctx st = (m, some e) → m = none := by
      intro n
      induction n with
      | zero =>
        intro bytes hb tail ctx st m e h
        have hbe : bytes = [] := List.eq_nil_of_length_eq_zero (by omega)
        subst hbe
        rw [h3ReadLoop_error [] tail ctx st (tailToErr tail) rfl] at h
        split at h
        · simp only [Prod.mk.injEq] at h
          exact h.1.symm
        · split at h
          · simp only [Prod.mk.injEq] at h
            exact absurd h.2 (by simp)
          · split at h
            · simp only [Prod.mk.injEq] at h
              exact h.1.symm
            · simp only [Prod.mk.injEq] at h
              exact h.1.symm
      | succ k ih =>
        intro bytes hb tail ctx st m e h
        cases hm : readFrame bytes tail with
        | error err =>
          rw [h3ReadLoop_error bytes tail ctx st err hm] at h
          split at h
          · simp only [Prod.mk.injEq] at h
            exact h.1.symm
          · split at h
            · simp only [Prod.mk.injEq] at h
              exact absurd h.2 (by simp)
            · split at h
              · simp only [Prod.mk.injEq] at h
                exact h.1.symm
              · simp only [Prod.mk.injEq] at h
                exact h.1.symm
        | ok pr =>
          obtain ⟨fr, rest⟩ := pr
          have hlen := readFrame_length bytes tail fr rest hm
          rw [h3ReadLoop_ok bytes tail ctx st fr rest hm] at h
          by_cases h0 : fr.1 = 0x0
          · rw [if_pos h0] at h
            exact ih rest (by omega) tail ctx _ m e h
          · rw [if_neg h0] at h
            by_cases h1 : fr.1 = 0x1
            · rw [if_pos h1] at h
              exact ih rest (by omega) tail ctx _ m e h
            · rw [if_neg h1] at h
              exact ih rest (by omega) tail ctx st m e h
    intro bytes tail ctx st m e h
    exact main bytes.length bytes le_rfl tail ctx st m e h

theorem no_partial_message_on_error_witness :
    (⟨[], []⟩ : HTTPMessage) = ⟨[], []⟩ ∧ (none : Option HTTPMessage) = none := by
  have hrun : h3ReadLoop [] .otherErr false ⟨[], [], []⟩
      = (none, some (H3Error.readErr H3ReadErr.other)) := by
    rw [h3ReadLoop_error [] .otherErr false _ .other rfl]
    simp
  exact ⟨no_partial_message_on_error.1 [] ⟨[], [], [], false, false, false⟩ ⟨[], []⟩
      .readError rfl,
    no_partial_message_on_error.2 [] .otherErr false ⟨[], [], []⟩ none
      (.readErr .other) hrun⟩
